import Mathlib

/-!
Verification development for the media-conversion job orchestration server
(`src/server.js`).  The JavaScript code is shallowly embedded: each event
handler of `performConversion` (stderr chunk, process close, timeout timer)
becomes a pure step function on the `Job` record; the Express handlers for
prepare / download / cleanup become pure functions of the registry, the file
system (a list of paths), and their inputs.

Numeric conventions: the JS `progress` field holds IEEE doubles whose only
possible values are 0, 10, 80, 100 and `Math.min(70, parseInt(tok) * 0.7)`
for a natural number `tok`.  We store progress in *tenths of a percent*
(`progressTenths : Nat`, i.e. the JS value times 10), so the scaling becomes
the exact `min 700 (7 * tok)`.  Every comparison the program performs
(`Math.max`, `Math.min 70`) gives the same result on these exact values as on
their IEEE-double counterparts, because distinct exact values here differ by
at least 0.1 while the double rounding error is below 1e-10.
-/

namespace YtConv

/-- Job status enum (`JobStatus` in `server.js`). -/
inductive JobStatus where
  | queued
  | downloading
  | converting
  | ready
  | error
deriving DecidableEq, Repr

/-- Normalized video metadata, the resolved value of `getVideoMetadata`. -/
structure Metadata where
  title : String
  thumbnail : Option String
  duration : Option Nat
  uploader : String
  viewCount : Option Nat
deriving DecidableEq, Repr

/-- A registry entry, the job object created by `POST /api/prepare`.
`progressTenths` is the JS `progress` field times 10 (see file header). -/
structure Job where
  id : String
  url : String
  metadata : Metadata
  status : JobStatus
  progressTenths : Nat
  createdAt : Nat
  outputPath : Option String
  error : Option String
  completedAt : Option Nat
deriving DecidableEq, Repr

/-- The in-memory job store (`const jobs = new Map()`), as an association
list keyed by job id. -/
abbrev Registry := List (String × Job)

/-! ### String helpers mirroring the JavaScript string operations -/

/-- `List.isPrefixOf` on characters, spelled out so that proofs can unfold
it. -/
def isPrefixList : List Char → List Char → Bool
  | [], _ => true
  | _ :: _, [] => false
  | n :: ns, h :: hs => n == h && isPrefixList ns hs

/-- Substring test on character lists: JS `hay.includes(needle)`. -/
def hasSubList (needle : List Char) : List Char → Bool
  | [] => needle.isEmpty
  | h :: t => isPrefixList needle (h :: t) || hasSubList needle t

/-- JS `hay.includes(needle)`. -/
def strHas (hay needle : String) : Bool :=
  hasSubList needle.toList hay.toList

/-- Splits a leading run of decimal digits off a character list. -/
def splitDigits : List Char → List Char × List Char
  | [] => ([], [])
  | c :: t =>
    if c.isDigit then
      let (d, r) := splitDigits t
      (c :: d, r)
    else ([], c :: t)

/-- Numeric value of a digit string (JS `parseInt` on an all-digit string). -/
def digitsVal (ds : List Char) : Nat :=
  ds.foldl (fun a c => 10 * a + (c.toNat - 48)) 0

/-- Attempts the regex `(\d+(?:\.\d+)?)%` anchored at the head of `cs` and
returns `parseInt` of the captured integer digits.  With a greedy `\d+`
followed immediately by a digit-or-`%` requirement, backtracking to a shorter
digit run can never succeed, so matching the maximal runs is exact. -/
def pctAt (cs : List Char) : Option Nat :=
  let (run, rest) := splitDigits cs
  if run.isEmpty then none
  else
    match rest with
    | '%' :: _ => some (digitsVal run)
    | '.' :: r2 =>
      let (frac, r3) := splitDigits r2
      if frac.isEmpty then none
      else
        match r3 with
        | '%' :: _ => some (digitsVal run)
        | _ => none
    | _ => none

/-- Leftmost match of `(\d+(?:\.\d+)?)%` in the line: the JS
`output.match(...)`, returning `parseInt(match[1])`.  Scanning character by
character agrees with the regex engine's leftmost-match rule because a failed
attempt at an interior digit of a run fails for the same reason the attempt
at the run's start failed. -/
def findPercent : List Char → Option Nat
  | [] => none
  | c :: t =>
    if c.isDigit then
      match pctAt (c :: t) with
      | some v => some v
      | none => findPercent t
    else findPercent t

/-- JS `String.prototype.trim` modeled on the character list (whitespace
stripped from both ends). -/
def jsTrim (s : String) : String :=
  ⟨((s.toList.dropWhile Char.isWhitespace).reverse.dropWhile
      Char.isWhitespace).reverse⟩

/-! ### The conversion orchestrator (`performConversion`) as step functions -/

/-- Entry of `performConversion`: `job.status = DOWNLOADING; job.progress = 10`. -/
def startStep (j : Job) : Job :=
  { j with status := .downloading, progressTenths := 100 }

/-- The stderr `data` handler of `performConversion`: parses one diagnostic
line.  A line containing `[download]` and `100%` sets status Converting and
progress 80; otherwise a line containing `[download]` and a percentage `tok%`
advances progress to `max(progress, min(70, parseInt(tok) * 0.7))`; all other
lines leave the job unchanged. -/
def lineStep (j : Job) (line : String) : Job :=
  if strHas line "[download]" then
    if strHas line "100%" then
      { j with status := .converting, progressTenths := 800 }
    else if strHas line "%" then
      match findPercent line.toList with
      | some p =>
        { j with progressTenths := max j.progressTenths (min 700 (7 * p)) }
      | none => j
    else j
  else j

/-- The candidate output files checked after a clean exit (`possibleFiles`
in `server.js`): the requested path first, then the same stem with each of
the extensions yt-dlp may substitute.  `stem` is the sanitized dot-free
filename prefix, so the JS `replace('.fmt', ...)` rewrites exactly the final
extension. -/
def possibleFiles (stem format : String) : List String :=
  [ stem ++ "." ++ format
  , stem ++ ".mp3"
  , stem ++ ".mp4"
  , stem ++ ".webm"
  , stem ++ ".m4a" ]

/-- The `close` handler of the conversion process.  `exitCode = some 0` is
JS `code === 0` (a killed process reports `null`, modeled as `none`).
`fsExists` is the `fs.existsSync` oracle at that instant. -/
def closeStep (stem format : String) (fsExists : String → Bool)
    (exitCode : Option Int) (stderrAll : String) (now : Nat) (j : Job) : Job :=
  if exitCode = some 0 then
    match (possibleFiles stem format).find? (fun f => fsExists f) with
    | some actualFile =>
      { j with status := .ready, progressTenths := 1000,
               outputPath := some actualFile, completedAt := some now }
    | none =>
      { j with status := .error, error := some "Output file not generated" }
  else
    { j with status := .error,
             error := some (if jsTrim stderrAll = "" then
                              "Unknown conversion error"
                            else jsTrim stderrAll) }

/-- The 600-second `setTimeout` callback of `performConversion`: kills the
process and records the timeout, leaving `progress` untouched.  In the code
this timer is never cleared, so it fires even when the job already finished. -/
def timeoutStep (j : Job) : Job :=
  { j with status := .error, error := some "Conversion timeout" }

/-- Folds the stderr handler over a sequence of diagnostic lines. -/
def runLines (j : Job) (ls : List String) : Job :=
  ls.foldl lineStep j

/-- The single terminal event of one supervision: either the process `close`
event or the timeout timer. -/
inductive FinalEvent where
  | procClose (fsExists : String → Bool) (exitCode : Option Int)
      (stderrAll : String) (now : Nat)
  | timeoutFire

/-- Applies the terminal event's handler. -/
def finalStep (stem format : String) (j : Job) : FinalEvent → Job
  | .procClose fsExists exitCode stderrAll now =>
    closeStep stem format fsExists exitCode stderrAll now j
  | .timeoutFire => timeoutStep j

/-! ### Invariants of the orchestration steps -/

/-- The job is in the non-terminal phase the stderr handler can observe. -/
def Running (j : Job) : Prop :=
  j.status = .downloading ∨ j.status = .converting

/-- The progress values each status admits in `performConversion`:
queued 0; downloading between 10 and 70; converting exactly 80; ready
exactly 100; error frozen at a previously reachable value (at most 80, or
100 when a stale timer fired on a Ready job). -/
def Inv (j : Job) : Prop :=
  (j.status = .queued → j.progressTenths = 0) ∧
  (j.status = .downloading →
    100 ≤ j.progressTenths ∧ j.progressTenths ≤ 700) ∧
  (j.status = .converting → j.progressTenths = 800) ∧
  (j.status = .ready → j.progressTenths = 1000) ∧
  (j.status = .error → j.progressTenths ≤ 800 ∨ j.progressTenths = 1000)

theorem lineStep_cases (j : Job) (l : String) :
    lineStep j l = { j with status := .converting, progressTenths := 800 } ∨
    (∃ p, lineStep j l =
      { j with progressTenths := max j.progressTenths (min 700 (7 * p)) }) ∨
    lineStep j l = j := by
  unfold lineStep
  by_cases h1 : strHas l "[download]" = true
  · by_cases h2 : strHas l "100%" = true
    · simp [h1, h2]
    · by_cases h3 : strHas l "%" = true
      · simp only [h1, h2, h3, if_true, if_false, Bool.false_eq_true]
        cases hp : findPercent l.toList with
        | none => simp
        | some p =>
          refine Or.inr (Or.inl ⟨p, ?_⟩)
          simp
      · simp [h1, h2, h3]
  · simp [h1]

theorem running_bound (j : Job) (hr : Running j) (hi : Inv j) :
    j.progressTenths ≤ 800 := by
  obtain ⟨-, i2, i3, -, -⟩ := hi
  rcases hr with h | h
  · exact le_trans (i2 h).2 (by omega)
  · exact le_of_eq (i3 h)

theorem lineStep_preserves (j : Job) (l : String)
    (hr : Running j) (hi : Inv j) :
    Running (lineStep j l) ∧ Inv (lineStep j l) ∧
    j.progressTenths ≤ (lineStep j l).progressTenths := by
  obtain ⟨i1, i2, i3, i4, i5⟩ := hi
  rcases lineStep_cases j l with h | ⟨p, h⟩ | h <;> rw [h]
  · refine ⟨Or.inr rfl, ⟨?_, ?_, ?_, ?_, ?_⟩, running_bound j hr ⟨i1, i2, i3, i4, i5⟩⟩ <;>
      simp
  · refine ⟨hr, ⟨?_, ?_, ?_, ?_, ?_⟩, ?_⟩ <;> simp only []
    · intro hs
      rcases hr with h' | h' <;> rw [hs] at h' <;> cases h'
    · intro hs
      have := i2 hs
      omega
    · intro hs
      have := i3 hs
      omega
    · intro hs
      rcases hr with h' | h' <;> rw [hs] at h' <;> cases h'
    · intro hs
      rcases hr with h' | h' <;> rw [hs] at h' <;> cases h'
    · exact Nat.le_max_left _ _
  · exact ⟨hr, ⟨i1, i2, i3, i4, i5⟩, le_refl _⟩

theorem startStep_ok (j : Job) : Running (startStep j) ∧ Inv (startStep j) := by
  refine ⟨Or.inl rfl, ⟨?_, ?_, ?_, ?_, ?_⟩⟩ <;> simp [startStep]

theorem runLines_preserves (ls : List String) (j : Job)
    (hr : Running j) (hi : Inv j) :
    Running (runLines j ls) ∧ Inv (runLines j ls) ∧
    j.progressTenths ≤ (runLines j ls).progressTenths := by
  induction ls generalizing j with
  | nil => exact ⟨hr, hi, le_refl _⟩
  | cons a t ih =>
    have hstep := lineStep_preserves j a hr hi
    have hrest := ih (lineStep j a) hstep.1 hstep.2.1
    have hdef : runLines j (a :: t) = runLines (lineStep j a) t := rfl
    rw [hdef]
    exact ⟨hrest.1, hrest.2.1, le_trans hstep.2.2 hrest.2.2⟩

theorem runLines_append (j : Job) (a b : List String) :
    runLines j (a ++ b) = runLines (runLines j a) b := by
  simp [runLines, List.foldl_append]

theorem finalStep_error_keeps (stem format : String) (s : Job)
    (fin : FinalEvent) (h : (finalStep stem format s fin).status = .error) :
    (finalStep stem format s fin).progressTenths = s.progressTenths := by
  cases fin with
  | timeoutFire => rfl
  | procClose fsExists exitCode stderrAll now =>
    simp only [finalStep, closeStep] at h ⊢
    by_cases hc : exitCode = some 0
    · simp only [hc, if_true] at h ⊢
      cases hf : (possibleFiles stem format).find? (fun f => fsExists f) with
      | some f => rw [hf] at h; simp at h
      | none => rfl
    · simp [hc]

theorem finalStep_ready_100 (stem format : String) (s : Job)
    (fin : FinalEvent) (h : (finalStep stem format s fin).status = .ready) :
    (finalStep stem format s fin).progressTenths = 1000 := by
  cases fin with
  | timeoutFire => cases h
  | procClose fsExists exitCode stderrAll now =>
    simp only [finalStep, closeStep] at h ⊢
    by_cases hc : exitCode = some 0
    · simp only [hc, if_true] at h ⊢
      cases hf : (possibleFiles stem format).find? (fun f => fsExists f) with
      | some f => rfl
      | none => rw [hf] at h; simp at h
    · simp [hc] at h

theorem runLines_take_mono (j : Job) (ls : List String) (n : Nat)
    (hr : Running j) (hi : Inv j) :
    (runLines j (ls.take n)).progressTenths ≤
      (runLines j (ls.take (n + 1))).progressTenths := by
  have hp := runLines_preserves (ls.take n) j hr hi
  rw [List.take_succ, runLines_append]
  cases hg : ls[n]? with
  | none => simp [runLines]
  | some a =>
    have hstep := lineStep_preserves (runLines j (ls.take n)) a hp.1 hp.2.1
    simpa [runLines] using hstep.2.2

theorem finalStep_bound (stem format : String) (s : Job) (fin : FinalEvent)
    (hr : Running s) (hi : Inv s) :
    (finalStep stem format s fin).progressTenths ≤ 1000 := by
  have hb := running_bound s hr hi
  cases fin with
  | timeoutFire => exact le_trans hb (by omega)
  | procClose fsExists exitCode stderrAll now =>
    simp only [finalStep, closeStep]
    by_cases hc : exitCode = some 0
    · simp only [hc, if_true]
      cases hf : (possibleFiles stem format).find? (fun f => fsExists f) with
      | some f => exact le_refl _
      | none => exact le_trans hb (by omega)
    · simp only [hc, if_false]
      exact le_trans hb (by omega)

/-! ### Metadata fetcher (`getVideoMetadata`) -/

/-- The single event that settles one metadata probe: the probe process
closes (with its exit code and accumulated stdout/stderr), or the 30-second
timer fires first and kills it. -/
inductive ProbeEvent where
  | probeClose (exitCode : Option Int) (stdoutAll stderrAll : String)
  | probeTimeout

/-- Outcome of `getVideoMetadata` for the event that settles its promise.
`parseJson` stands for the platform's `JSON.parse` composed with the field
normalization at lines 91–97 of `server.js` (defaults such as
"Unknown Title"); it is an external collaborator, so it is a parameter.
There is no retry: the result is a function of the single settling event. -/
def getVideoMetadataResult (parseJson : String → Option Metadata) :
    ProbeEvent → Except String Metadata
  | .probeTimeout => .error "Metadata fetch timeout"
  | .probeClose exitCode stdoutAll stderrAll =>
    if exitCode = some 0 then
      match parseJson (jsTrim stdoutAll) with
      | some metadata => .ok metadata
      | none => .error "Failed to parse video metadata"
    else
      .error ("Failed to fetch metadata: " ++ jsTrim stderrAll)

/-! ### Registry operations (the Express handlers) -/

/-- `jobs.get(jobId)` on the association-list registry. -/
def lookupJob (reg : Registry) (jobId : String) : Option Job :=
  (List.find? (fun e => e.1 == jobId) reg).map (fun e => e.2)

/-- The `POST /api/prepare` handler.  URL validation (`isValidYouTubeUrl`)
and the metadata fetch have already produced `validUrl` and `fetched`; the
handler allocates `freshId` and inserts the new job only when both
succeeded.  Returns the response (the allocated id, or `none` for the 400 /
500 error responses) and the new registry. -/
def prepare (validUrl : Bool) (fetched : Except String Metadata)
    (freshId url : String) (now : Nat) (reg : Registry) :
    Option String × Registry :=
  if validUrl then
    match fetched with
    | .error _ => (none, reg)
    | .ok metadata =>
      (some freshId,
        (freshId,
          { id := freshId, url := url, metadata := metadata,
            status := .queued, progressTenths := 0, createdAt := now,
            outputPath := none, error := none, completedAt := none }) :: reg)
  else (none, reg)

/-- The read part of the `GET /api/download/:jobId` handler: the path that
gets streamed, or `none` for the two 404 responses ("File not ready for
download" when the job is missing, has no `outputPath`, or is not Ready;
"File not found" when the artifact is gone). -/
def download (reg : Registry) (fs : List String) (jobId : String) :
    Option String :=
  match lookupJob reg jobId with
  | none => none
  | some job =>
    match job.outputPath with
    | none => none
    | some filePath =>
      if job.status = .ready then
        if fs.contains filePath then some filePath else none
      else none

/-- The whole download handler: it streams without mutating the registry or
the file system; deletion is deferred to `deferredCleanup`. -/
def downloadHandler (reg : Registry) (fs : List String) (jobId : String) :
    Option String × Registry × List String :=
  (download reg fs jobId, reg, fs)

/-- The deferred deletion scheduled 5 seconds after a completed stream:
`fs.remove(filePath)` (a no-op when the file is already gone) and
`jobs.delete(jobId)`. -/
def deferredCleanup (reg : Registry) (fs : List String)
    (jobId filePath : String) : Registry × List String :=
  (List.filter (fun e => !(e.1 == jobId)) reg, fs.erase filePath)

/-- Whether an entry is old enough for the sweep: `job.createdAt < cutoff`
with `cutoff = now - maxAge` (over the integers; in `Nat` form
`createdAt + maxAge < now`).  `server.js` fixes `maxAge` to one hour. -/
def isOld (now maxAge : Nat) (j : Job) : Bool :=
  decide (j.createdAt + maxAge < now)

/-- Per-entry artifact deletion of the cleanup pass: the
`if (job.outputPath && fs.existsSync(...)) fs.removeSync(...)` body. -/
def sweepFsStep (acc : List String) (e : String × Job) : List String :=
  match e.2.outputPath with
  | some p => if acc.contains p then acc.erase p else acc
  | none => acc

/-- The `POST /api/cleanup` handler generalized over `maxAge` (the code
instantiates `maxAge = 3600000` ms): every entry older than the cutoff is
deleted from the registry, and its artifact, when present on disk, is
removed. -/
def sweep (now maxAge : Nat) (reg : Registry) (fs : List String) :
    Registry × List String :=
  let old := List.filter (fun e => isOld now maxAge e.2) reg
  (List.filter (fun e => !(isOld now maxAge e.2)) reg,
   old.foldl sweepFsStep fs)

/-! ### Concrete fixtures used by the closed theorems -/

/-- A concrete metadata record for the closed example runs. -/
def demoMetadata : Metadata :=
  { title := "Big Buck Bunny", thumbnail := none, duration := some 596,
    uploader := "Blender Foundation", viewCount := none }

/-- A freshly prepared job (the state right after `POST /api/prepare`). -/
def demoJob : Job :=
  { id := "job-1", url := "https://example.test/watch", metadata := demoMetadata,
    status := .queued, progressTenths := 0, createdAt := 0,
    outputPath := none, error := none, completedAt := none }

/-- Every terminal event leaves the job Ready or Error. -/
theorem finalStep_terminal (stem format : String) (s : Job) (fin : FinalEvent) :
    (finalStep stem format s fin).status = .ready ∨
    (finalStep stem format s fin).status = .error := by
  cases fin with
  | timeoutFire => exact Or.inr rfl
  | procClose fsExists exitCode stderrAll now =>
    simp only [finalStep, closeStep]
    by_cases hc : exitCode = some 0
    · simp only [hc, if_true]
      cases hf : (possibleFiles stem format).find? (fun f => fsExists f) with
      | some f => exact Or.inl rfl
      | none => exact Or.inr rfl
    · rw [if_neg hc]
      exact Or.inr rfl

/-! ### Claim theorems -/

/-- The job produced by a successful close at 50s of supervision: the
conversion process exited with code 0 and the requested `clip.mp4` exists,
so the job is Ready.  The 600-second timer of `performConversion` is never
cleared, so `timeoutStep` still fires on this job later. -/
def staleTimerReadyJob : Job :=
  closeStep "clip" "mp4" (fun f => f == "clip.mp4") (some 0) "" 50
    (startStep demoJob)

/-- Claim C1: a job that reaches the terminal status Ready is nevertheless
mutated again when the never-cancelled 600-second timeout timer fires: its
status becomes Error and its error field is set to the timeout diagnostic.
This exhibits the code reaching Ready and then Error for the same job, which
the claim (and the spec's terminal-state guarantee) forbids. -/
theorem staleTimerOverwritesReadyJob :
    staleTimerReadyJob.status = .ready ∧
    staleTimerReadyJob.progressTenths = 1000 ∧
    (timeoutStep staleTimerReadyJob).status = .error ∧
    (timeoutStep staleTimerReadyJob).error = some "Conversion timeout" := by
  refine ⟨?_, ?_, ?_, ?_⟩ <;> decide

/-- Claim C4: when the 600-second timeout fires on a supervision that has
not completed, the job transitions to Error with the `ConversionTimeout`
diagnostic (the string "Conversion timeout" in `server.js`) while its
progress keeps its last observed value; the process kill is the
`ytDlp.kill()` call preceding these mutations. -/
theorem conversionTimeoutBehavior (j : Job) :
    (timeoutStep j).status = .error ∧
    (timeoutStep j).error = some "Conversion timeout" ∧
    (timeoutStep j).progressTenths = j.progressTenths :=
  ⟨rfl, rfl, rfl⟩

/-- Claim C2, counterexample to integrality: starting conversion (progress
10) and then receiving the diagnostic line `[download]  45.2% of ~3.50MiB`
leaves the job's progress at 31.5 percent (315 tenths), which is not an
integer, because the code computes `parseInt("45.2") * 0.7 = 45 * 0.7`. -/
theorem progressIntegralityCounterexample :
    (runLines (startStep demoJob)
        ["[download]  45.2% of ~3.50MiB"]).progressTenths % 10 = 5 := by
  decide

/-- Claim C2 as amended: along any conversion run (start, any sequence of
diagnostic lines, one terminal event) the job's progress is a number in
[0,100] — not necessarily an integer — measured in tenths: it never exceeds
1000 tenths, is non-decreasing across every diagnostic line (the
non-terminal phase), stays unchanged by a terminal event that ends in
Error, and equals 100 (1000 tenths) whenever the terminal event ends in
Ready. -/
theorem conversionProgressInvariants (j : Job) (ls : List String)
    (stem format : String) (fin : FinalEvent) (n : Nat) :
    (runLines (startStep j) (ls.take n)).progressTenths ≤
      (runLines (startStep j) (ls.take (n + 1))).progressTenths ∧
    (runLines (startStep j) (ls.take n)).progressTenths ≤ 1000 ∧
    Running (runLines (startStep j) ls) ∧
    ((finalStep stem format (runLines (startStep j) ls) fin).status = .error →
      (finalStep stem format (runLines (startStep j) ls) fin).progressTenths =
        (runLines (startStep j) ls).progressTenths) ∧
    ((finalStep stem format (runLines (startStep j) ls) fin).status = .ready →
      (finalStep stem format (runLines (startStep j) ls) fin).progressTenths =
        1000) ∧
    (finalStep stem format (runLines (startStep j) ls) fin).progressTenths ≤
      1000 := by
  obtain ⟨hr0, hi0⟩ := startStep_ok j
  have hp := runLines_preserves ls (startStep j) hr0 hi0
  have hpn := runLines_preserves (ls.take n) (startStep j) hr0 hi0
  exact ⟨runLines_take_mono (startStep j) ls n hr0 hi0,
         le_trans (running_bound _ hpn.1 hpn.2.1) (by omega),
         hp.1,
         finalStep_error_keeps stem format _ fin,
         finalStep_ready_100 stem format _ fin,
         finalStep_bound stem format _ fin hp.1 hp.2.1⟩

/-- Witness for `conversionProgressInvariants`: a concrete run whose close
event finds the requested artifact, so the job ends Ready at progress 100. -/
theorem conversionProgressInvariantsWitness :
    (finalStep "clip" "mp3"
      (runLines (startStep demoJob) ["[download]  45.2% of ~3.50MiB"])
      (.procClose (fun _ => true) (some 0) "" 7)).progressTenths = 1000 :=
  (conversionProgressInvariants demoJob ["[download]  45.2% of ~3.50MiB"]
    "clip" "mp3" (.procClose (fun _ => true) (some 0) "" 7) 0).2.2.2.2.1
    (by decide)

/-- Claim C10: along the diagnostic-line phase, a Downloading job's progress
never exceeds 70 (700 tenths); any progress above 70 before process exit can
only be the Converting state at exactly 80 (the download-completion marker);
and no progress value strictly between 80 and 100 ever occurs, either during
the line phase or after the terminal event. -/
theorem progressBandInvariant (j : Job) (ls : List String)
    (stem format : String) (fin : FinalEvent) :
    ((runLines (startStep j) ls).status = .downloading →
      (runLines (startStep j) ls).progressTenths ≤ 700) ∧
    (700 < (runLines (startStep j) ls).progressTenths →
      (runLines (startStep j) ls).status = .converting ∧
      (runLines (startStep j) ls).progressTenths = 800) ∧
    ¬(800 < (runLines (startStep j) ls).progressTenths ∧
      (runLines (startStep j) ls).progressTenths < 1000) ∧
    ¬(800 < (finalStep stem format (runLines (startStep j) ls) fin).progressTenths ∧
      (finalStep stem format (runLines (startStep j) ls) fin).progressTenths <
        1000) := by
  obtain ⟨hr0, hi0⟩ := startStep_ok j
  have hp := runLines_preserves ls (startStep j) hr0 hi0
  obtain ⟨i1, i2, i3, i4, i5⟩ := hp.2.1
  refine ⟨fun h => (i2 h).2, ?_, ?_, ?_⟩
  · intro hgt
    rcases hp.1 with h | h
    · exact absurd hgt (by have := (i2 h).2; omega)
    · exact ⟨h, i3 h⟩
  · have hb := running_bound _ hp.1 hp.2.1
    omega
  · rcases finalStep_terminal stem format (runLines (startStep j) ls) fin
      with h | h
    · have := finalStep_ready_100 stem format _ fin h
      omega
    · have := finalStep_error_keeps stem format _ fin h
      have hb := running_bound _ hp.1 hp.2.1
      omega

/-- Witness for `progressBandInvariant`: the download-completion marker line
puts a concrete run at Converting with progress exactly 80. -/
theorem progressBandInvariantWitness :
    (runLines (startStep demoJob) ["[download] 100% of 3.50MiB"]).status =
      .converting ∧
    (runLines (startStep demoJob) ["[download] 100% of 3.50MiB"]).progressTenths =
      800 :=
  (progressBandInvariant demoJob ["[download] 100% of 3.50MiB"] "clip" "mp3"
    .timeoutFire).2.1 (by decide)

/-- Claim C3, counterexample: on the freshly started job (progress 10), the
line `[download]  45.2% of ~3.50MiB` yields progress 31.5 (315 tenths), not
the claimed `max(previous, 31)` = 31 (310 tenths): the code truncates 45.2
to 45 with `parseInt` and does not round `45 * 0.7 = 31.5`. -/
theorem downloadPercentScalingCounterexample :
    (lineStep (startStep demoJob) "[download]  45.2% of ~3.50MiB").progressTenths
      = 315 ∧ (315 : Nat) ≠ 310 := by
  refine ⟨?_, ?_⟩ <;> decide

/-- Claim C3 as amended: a download-phase line with the completion marker
(`[download]` and `100%`) sets status Converting and progress to the fixed
value 80; a `[download]` line carrying a raw percentage whose integer part
is `p` (the JS `parseInt` of the regex capture) advances progress to
`max(current, min(70, p × 0.7))` — in tenths, `max(current, min(700, 7p))`;
in particular `[download]  45.2%` uses `p = 45` and yields
`max(previous, 31.5)`; lines without the `[download]` tag, or with no
recognizable percentage, change nothing and raise no error. -/
theorem progressLineCharacterization (j : Job) (line : String) :
    (strHas line "[download]" = true → strHas line "100%" = true →
      lineStep j line = { j with status := .converting, progressTenths := 800 }) ∧
    (strHas line "[download]" = true → strHas line "100%" = false →
      strHas line "%" = true → ∀ p, findPercent line.toList = some p →
        lineStep j line =
          { j with progressTenths := max j.progressTenths (min 700 (7 * p)) }) ∧
    (strHas line "[download]" = true → strHas line "100%" = false →
      findPercent line.toList = none → lineStep j line = j) ∧
    (strHas line "[download]" = false → lineStep j line = j) ∧
    (lineStep (startStep j) "[download]  45.2% of ~3.50MiB" =
      { startStep j with progressTenths := 315 }) := by
  refine ⟨?_, ?_, ?_, ?_, ?_⟩
  · intro h1 h2
    simp [lineStep, h1, h2]
  · intro h1 h2 h3 p hp
    have hp' : findPercent line.data = some p := hp
    simp [lineStep, h1, h2, h3, hp']
  · intro h1 h2 hp
    have hp' : findPercent line.data = none := hp
    by_cases h3 : strHas line "%" = true
    · simp [lineStep, h1, h2, h3, hp']
    · simp [lineStep, h1, h2, h3]
  · intro h1
    simp [lineStep, h1]
  · rfl

/-- Witness for `progressLineCharacterization`: the completion-marker case
on a concrete line. -/
theorem progressLineCharacterizationWitness :
    lineStep demoJob "[download] 100% of 3.50MiB" =
      { demoJob with status := .converting, progressTenths := 800 } :=
  (progressLineCharacterization demoJob "[download] 100% of 3.50MiB").1
    (by decide) (by decide)

/-- Claim C5: after exit code 0, the orchestrator checks the fixed ordered
candidate list (requested path, then the same stem with `.mp3`, `.mp4`,
`.webm`, `.m4a`); the first candidate that exists is accepted and the job
becomes Ready with `outputPath` pointing at it (cascade conjuncts state the
order explicitly); when no candidate exists the job becomes Error with the
`OutputMissing` diagnostic ("Output file not generated" in `server.js`). -/
theorem artifactResolutionContract (stem format : String)
    (fsExists : String → Bool) (stderrAll : String) (now : Nat) (j : Job) :
    possibleFiles stem format =
      [stem ++ "." ++ format, stem ++ ".mp3", stem ++ ".mp4",
       stem ++ ".webm", stem ++ ".m4a"] ∧
    (∀ f, (possibleFiles stem format).find? (fun g => fsExists g) = some f →
      closeStep stem format fsExists (some 0) stderrAll now j =
        { j with status := .ready, progressTenths := 1000,
                 outputPath := some f, completedAt := some now } ∧
      fsExists f = true ∧ f ∈ possibleFiles stem format) ∧
    (fsExists (stem ++ "." ++ format) = true →
      (closeStep stem format fsExists (some 0) stderrAll now j).outputPath =
        some (stem ++ "." ++ format)) ∧
    (fsExists (stem ++ "." ++ format) = false →
      fsExists (stem ++ ".mp3") = true →
      (closeStep stem format fsExists (some 0) stderrAll now j).outputPath =
        some (stem ++ ".mp3")) ∧
    (fsExists (stem ++ "." ++ format) = false →
      fsExists (stem ++ ".mp3") = false →
      fsExists (stem ++ ".mp4") = false →
      fsExists (stem ++ ".webm") = true →
      (closeStep stem format fsExists (some 0) stderrAll now j).outputPath =
        some (stem ++ ".webm")) ∧
    ((∀ f ∈ possibleFiles stem format, fsExists f = false) →
      closeStep stem format fsExists (some 0) stderrAll now j =
        { j with status := .error,
                 error := some "Output file not generated" }) := by
  refine ⟨rfl, ?_, ?_, ?_, ?_, ?_⟩
  · intro f hf
    refine ⟨?_, List.find?_some hf, List.mem_of_find?_eq_some hf⟩
    simp [closeStep, hf]
  · intro h0
    simp [closeStep, possibleFiles, List.find?, h0]
  · intro h0 h1
    simp [closeStep, possibleFiles, List.find?, h0, h1]
  · intro h0 h1 h2 h3
    simp [closeStep, possibleFiles, List.find?, h0, h1, h2, h3]
  · intro hall
    have hnone : (possibleFiles stem format).find? (fun g => fsExists g) = none :=
      List.find?_eq_none.mpr (by
        intro x hx
        simp [hall x hx])
    simp [closeStep, hnone]

/-- Witness for `artifactResolutionContract`: requested `vid.mp4` is absent
but `vid.webm` exists, so the webm candidate is selected. -/
theorem artifactResolutionContractWitness :
    (closeStep "vid" "mp4" (fun f => f == "vid.webm") (some 0) "" 9
        demoJob).outputPath = some ("vid" ++ ".webm") :=
  (artifactResolutionContract "vid" "mp4" (fun f => f == "vid.webm") "" 9
    demoJob).2.2.2.2.1 (by decide) (by decide) (by decide) (by decide)

/-- One cleanup deletion is `List.erase` of the artifact: when the file is
absent the `existsSync` guard makes it a no-op, and so does `erase`. -/
theorem sweepFsStep_erase (acc : List String) (e : String × Job) :
    sweepFsStep acc e =
      match e.2.outputPath with
      | some p => acc.erase p
      | none => acc := by
  unfold sweepFsStep
  cases e.2.outputPath with
  | none => rfl
  | some p =>
    show (if acc.contains p = true then acc.erase p else acc) = acc.erase p
    by_cases hc : acc.contains p = true
    · rw [if_pos hc]
    · have hm : p ∉ acc := fun hmem => hc (List.elem_iff.mpr hmem)
      rw [if_neg hc, List.erase_of_not_mem hm]

theorem foldl_sweepFs (old : List (String × Job)) (fs : List String)
    (hnd : fs.Nodup) (q : String) :
    (q ∈ List.foldl sweepFsStep fs old ↔
      q ∈ fs ∧ ∀ e ∈ old, e.2.outputPath ≠ some q) ∧
    (List.foldl sweepFsStep fs old).Nodup := by
  induction old generalizing fs with
  | nil =>
    exact ⟨⟨fun h => ⟨h, by simp⟩, fun h => h.1⟩, hnd⟩
  | cons a t ih =>
    have hdef : List.foldl sweepFsStep fs (a :: t) =
        List.foldl sweepFsStep (sweepFsStep fs a) t := rfl
    rw [hdef, sweepFsStep_erase]
    cases ho : a.2.outputPath with
    | none =>
      have h := ih fs hnd
      refine ⟨⟨fun hm => ?_, fun hm => (h.1).mpr ⟨hm.1, ?_⟩⟩, h.2⟩
      · obtain ⟨h1, h2⟩ := (h.1).mp hm
        refine ⟨h1, ?_⟩
        intro e he
        rcases List.mem_cons.mp he with rfl | he'
        · rw [ho]; exact fun hx => Option.noConfusion hx
        · exact h2 e he'
      · intro e he
        exact hm.2 e (List.mem_cons_of_mem a he)
    | some p =>
      have h := ih (fs.erase p) (hnd.erase p)
      refine ⟨⟨fun hm => ?_, fun hm => (h.1).mpr ⟨?_, ?_⟩⟩, h.2⟩
      · obtain ⟨h1, h2⟩ := (h.1).mp hm
        obtain ⟨hne, hmem⟩ := (hnd.mem_erase_iff).mp h1
        refine ⟨hmem, ?_⟩
        intro e he
        rcases List.mem_cons.mp he with rfl | he'
        · rw [ho]
          intro hx
          exact hne (Option.some.inj hx).symm
        · exact h2 e he'
      · refine (hnd.mem_erase_iff).mpr ⟨?_, hm.1⟩
        intro hq
        exact hm.2 a (List.mem_cons_self a t) (by rw [ho, hq])
      · intro e he
        exact hm.2 e (List.mem_cons_of_mem a he)

/-- Claim C7: a sweep keeps exactly the registry entries that are not older
than `maxAge` (and leaves them unchanged), removes swept entries' artifacts
from disk while leaving every other file alone, and running the identical
sweep again immediately is a no-op on both the registry and the file
system.  Deleting an already-absent job or artifact is not an error: both
halves are total functions, and `sweepFsStep` reduces to `List.erase`,
which leaves the list unchanged when the path is absent. -/
theorem sweepContract (now maxAge : Nat) (reg : Registry) (fs : List String) :
    (∀ e, e ∈ (sweep now maxAge reg fs).1 ↔
      e ∈ reg ∧ isOld now maxAge e.2 = false) ∧
    (fs.Nodup → ∀ q, q ∈ (sweep now maxAge reg fs).2 ↔
      q ∈ fs ∧ ∀ e ∈ reg, isOld now maxAge e.2 = true →
        e.2.outputPath ≠ some q) ∧
    sweep now maxAge (sweep now maxAge reg fs).1 (sweep now maxAge reg fs).2 =
      sweep now maxAge reg fs := by
  refine ⟨?_, ?_, ?_⟩
  · intro e
    simp [sweep, List.mem_filter]
  · intro hnd q
    have h := foldl_sweepFs (List.filter (fun e => isOld now maxAge e.2) reg)
      fs hnd q
    simp only [sweep]
    rw [h.1]
    constructor
    · rintro ⟨h1, h2⟩
      refine ⟨h1, ?_⟩
      intro e he hold
      exact h2 e (List.mem_filter.mpr ⟨he, hold⟩)
    · rintro ⟨h1, h2⟩
      refine ⟨h1, ?_⟩
      intro e he
      obtain ⟨he', hold⟩ := List.mem_filter.mp he
      exact h2 e he' hold
  · have hyoung : ∀ e ∈ (sweep now maxAge reg fs).1,
        isOld now maxAge e.2 = false := by
      intro e he
      simp [sweep, List.mem_filter] at he
      exact he.2
    have hold' : List.filter (fun e => isOld now maxAge e.2)
        (sweep now maxAge reg fs).1 = [] := by
      rw [List.filter_eq_nil_iff]
      intro e he
      simp [hyoung e he]
    have hkeep : List.filter (fun e => !(isOld now maxAge e.2))
        (sweep now maxAge reg fs).1 = (sweep now maxAge reg fs).1 := by
      rw [List.filter_eq_self]
      intro e he
      simp [hyoung e he]
    show (_, _) = _
    rw [hold', hkeep]
    rfl

/-- A one-hour-old entry owning an artifact, for the closed sweep example. -/
def demoOldEntry : String × Job :=
  ("job-old",
    { demoJob with
        id := "job-old", createdAt := 0, status := .ready,
        progressTenths := 1000, outputPath := some "old.mp3" })

/-- A fresh entry, for the closed sweep example. -/
def demoYoungEntry : String × Job :=
  ("job-young", { demoJob with id := "job-young", createdAt := 7000000 })

/-- Witness for `sweepContract`: sweeping at T+2h with a 1h maximum age
keeps the young entry (and, by the same contract, drops the old one). -/
theorem sweepContractWitness :
    demoYoungEntry ∈
      (sweep 7200000 3600000 [demoOldEntry, demoYoungEntry] ["old.mp3"]).1 :=
  ((sweepContract 7200000 3600000 [demoOldEntry, demoYoungEntry]
    ["old.mp3"]).1 demoYoungEntry).mpr ⟨by decide, by decide⟩

/-- Claim C6: the download operation streams the artifact exactly when the
job exists, its status is Ready, and the job's artifact file is on disk
(the code's two 404 responses — "File not ready for download" and
"File not found" — are the `DownloadNotReady` failure); the handler itself
mutates neither the registry nor the file system; the deferred deletion
scheduled after a completed stream removes exactly the job's entry and the
artifact's path, and deleting an already-missing artifact is a no-op rather
than an error. -/
theorem downloadContract (reg : Registry) (fs : List String) (jobId : String) :
    (∀ p, download reg fs jobId = some p ↔
      ∃ job, lookupJob reg jobId = some job ∧ job.status = .ready ∧
        job.outputPath = some p ∧ fs.contains p = true) ∧
    downloadHandler reg fs jobId = (download reg fs jobId, reg, fs) ∧
    (∀ p e, e ∈ (deferredCleanup reg fs jobId p).1 ↔
      e ∈ reg ∧ ¬(e.1 = jobId)) ∧
    (fs.Nodup → ∀ p q, q ∈ (deferredCleanup reg fs jobId p).2 ↔
      ¬(q = p) ∧ q ∈ fs) ∧
    (∀ p, p ∉ fs → (deferredCleanup reg fs jobId p).2 = fs) := by
  refine ⟨?_, rfl, ?_, ?_, ?_⟩
  · intro p
    cases hl : lookupJob reg jobId with
    | none => simp [download, hl]
    | some job =>
      cases ho : job.outputPath with
      | none => simp [download, hl, ho]
      | some q =>
        by_cases hs : job.status = .ready
        · by_cases hc : fs.contains q = true
          · simp [download, hl, ho, hs, hc]
            constructor
            · rintro ⟨h1, rfl⟩
              exact ⟨rfl, h1⟩
            · rintro ⟨rfl, h1⟩
              exact ⟨h1, rfl⟩
          · simp [download, hl, ho, hs, hc]
            constructor
            · rintro ⟨h1, rfl⟩
              exact ⟨rfl, h1⟩
            · rintro ⟨rfl, h1⟩
              exact ⟨h1, rfl⟩
        · simp [download, hl, ho, hs]
  · intro p e
    simp [deferredCleanup, List.mem_filter]
  · intro hnd p q
    exact hnd.mem_erase_iff
  · intro p hp
    exact List.erase_of_not_mem hp

/-- A job in the state left by a successful conversion, for the closed
download example. -/
def demoReadyJob : Job :=
  { demoJob with
      status := .ready, progressTenths := 1000,
      outputPath := some "clip.mp3", completedAt := some 60 }

/-- Witness for `downloadContract`: a Ready job whose artifact is on disk
is streamed. -/
theorem downloadContractWitness :
    download [("job-1", demoReadyJob)] ["clip.mp3"] "job-1" = some "clip.mp3" :=
  ((downloadContract [("job-1", demoReadyJob)] ["clip.mp3"] "job-1").1
    "clip.mp3").mpr ⟨demoReadyJob, by decide, by decide, by decide, by decide⟩

/-- Claim C8: `getVideoMetadata` fails with the `MetadataFetchError`
diagnostics exactly in the three cases — non-zero (or signalled) process
exit with the captured stderr text, unparsable probe output, or the
30-second timeout (after which the process is killed) — and succeeds with
the parsed metadata otherwise.  The result is a function of the one event
that settles the promise: there is no retry. -/
theorem metadataFetchContract (parseJson : String → Option Metadata)
    (ev : ProbeEvent) :
    getVideoMetadataResult parseJson .probeTimeout =
      .error "Metadata fetch timeout" ∧
    (∀ exitCode stdoutAll stderrAll,
      ev = .probeClose exitCode stdoutAll stderrAll → ¬(exitCode = some 0) →
      getVideoMetadataResult parseJson ev =
        .error ("Failed to fetch metadata: " ++ jsTrim stderrAll)) ∧
    (∀ stdoutAll stderrAll, ev = .probeClose (some 0) stdoutAll stderrAll →
      parseJson (jsTrim stdoutAll) = none →
      getVideoMetadataResult parseJson ev =
        .error "Failed to parse video metadata") ∧
    (∀ stdoutAll stderrAll m, ev = .probeClose (some 0) stdoutAll stderrAll →
      parseJson (jsTrim stdoutAll) = some m →
      getVideoMetadataResult parseJson ev = .ok m) ∧
    ((∃ e, getVideoMetadataResult parseJson ev = .error e) ↔
      (ev = .probeTimeout ∨
        ∃ exitCode stdoutAll stderrAll,
          ev = .probeClose exitCode stdoutAll stderrAll ∧
          (¬(exitCode = some 0) ∨ parseJson (jsTrim stdoutAll) = none))) := by
  refine ⟨rfl, ?_, ?_, ?_, ?_⟩
  · rintro exitCode stdoutAll stderrAll rfl hc
    simp [getVideoMetadataResult, hc]
  · rintro stdoutAll stderrAll rfl hp
    simp [getVideoMetadataResult, hp]
  · rintro stdoutAll stderrAll m rfl hp
    simp [getVideoMetadataResult, hp]
  · cases ev with
    | probeTimeout => simp [getVideoMetadataResult]
    | probeClose exitCode stdoutAll stderrAll =>
      by_cases hc : exitCode = some 0
      · subst hc
        cases hp : parseJson (jsTrim stdoutAll) with
        | none =>
          simp [getVideoMetadataResult, hp]
          exact ⟨some 0, stdoutAll, ⟨rfl, rfl⟩, Or.inr hp⟩
        | some m => simp [getVideoMetadataResult, hp]
      · simp [getVideoMetadataResult, hc]
        exact ⟨exitCode, stdoutAll, ⟨rfl, rfl⟩, Or.inl hc⟩

/-- Witness for `metadataFetchContract`: a probe that exits with code 1
surfaces the captured stderr diagnostic. -/
theorem metadataFetchContractWitness :
    getVideoMetadataResult (fun _ => none) (.probeClose (some 1) "x" "boom") =
      .error ("Failed to fetch metadata: " ++ jsTrim "boom") :=
  (metadataFetchContract (fun _ => none)
    (.probeClose (some 1) "x" "boom")).2.1 (some 1) "x" "boom" rfl (by decide)

/-- Claim C9: a prepare request that fails — malformed source reference or
metadata-fetch error — returns an error response and leaves the registry
exactly as it was, allocating no id; a successful prepare inserts exactly
one new entry, fully populated with the fetched metadata, status Queued and
progress 0. -/
theorem prepareRegistryContract (validUrl : Bool)
    (fetched : Except String Metadata) (freshId url : String) (now : Nat)
    (reg : Registry) :
    (validUrl = false →
      prepare validUrl fetched freshId url now reg = (none, reg)) ∧
    (∀ e, fetched = .error e →
      prepare validUrl fetched freshId url now reg = (none, reg)) ∧
    (∀ m, validUrl = true → fetched = .ok m →
      prepare validUrl fetched freshId url now reg =
        (some freshId,
          (freshId,
            { id := freshId, url := url, metadata := m, status := .queued,
              progressTenths := 0, createdAt := now, outputPath := none,
              error := none, completedAt := none }) :: reg)) := by
  refine ⟨?_, ?_, ?_⟩
  · rintro rfl
    rfl
  · rintro e rfl
    cases validUrl <;> rfl
  · rintro m rfl rfl
    rfl

/-- Witness for `prepareRegistryContract`: a metadata-fetch failure leaves
an empty registry empty. -/
theorem prepareRegistryContractWitness :
    prepare true (.error "Failed to fetch metadata: boom") "id-1"
      "https://example.test/watch" 5 [] = (none, []) :=
  (prepareRegistryContract true (.error "Failed to fetch metadata: boom")
    "id-1" "https://example.test/watch" 5 []).2.1
    "Failed to fetch metadata: boom" rfl

end YtConv
